import Mathlib

/- Shallow embedding of the Route Progress Engine of the wctsystem mobile
client (GaruVA/wctsystem-mobile).  The definitions below translate the
relevant parts of src/screens/CollectorRouteScreen.tsx and
src/services/api.ts: the geometric nearest-point lookup over the route
polyline, the active/future segment composer, the stop-completion state
machine, and the schedule-status lifecycle handlers.  JavaScript numbers
are modelled as integers: the geometry here uses only subtraction,
multiplication, addition and order comparisons, which behave uniformly
over any linear ordered commutative ring, so no property below depends
on coordinates having fractional parts.  JavaScript `undefined` is
`Option.none`, and array accesses that would throw a TypeError surface
as `none` results. -/

namespace WCT

/- Route coordinates are stored as [longitude, latitude] pairs
(`point[0]` = longitude, `point[1]` = latitude). -/
abbrev Coord := ℤ × ℤ

/- Map rendering uses { latitude, longitude } objects; the screen converts
a route point with `{ latitude: pt[1], longitude: pt[0] }`. -/
abbrev LatLng := ℤ × ℤ

def toLatLng (p : Coord) : LatLng := (p.2, p.1)

/- Planar squared distance used by the nearest-index scans:
`(pt[0] - coords[0]) ** 2 + (pt[1] - coords[1]) ** 2`. -/
def dist2 (pt coords : Coord) : ℤ :=
  (pt.1 - coords.1) ^ 2 + (pt.2 - coords.2) ^ 2

/- A populated bin object.  `location = none` models a bin whose
`location`/`location.coordinates` field is missing (the screen checks
`!bin.location` and similar before using it). -/
structure Bin where
  binId : String
  location : Option Coord
deriving DecidableEq, Repr

/- An entry of `schedule.binSequence`: either a bare string identifier
(an unpopulated bin) or a populated bin object. -/
inductive BinEntry where
  | strId : String → BinEntry
  | bin : Bin → BinEntry
deriving DecidableEq, Repr

inductive Status where
  | scheduled
  | inProgress
  | completed
  | cancelled
deriving DecidableEq, Repr

/- The area record carries the fixed depot start/end locations
(`areaId.startLocation.coordinates`, `areaId.endLocation.coordinates`). -/
structure Area where
  startLocation : Option Coord
  endLocation : Option Coord
deriving DecidableEq, Repr

structure Schedule where
  schedId : String
  status : Status
  binSequence : List BinEntry
  route : List Coord
  areaId : Option Area
deriving DecidableEq, Repr

/- JavaScript comparison `d < minDist` where `minDist` starts at
`Infinity` (modelled as `none`). -/
def ltInf (d : ℤ) : Option ℤ → Bool
  | none => true
  | some m => decide (d < m)

/- The `forEach` loop of `findClosestIndex` (CollectorRouteScreen.tsx,
lines 421-429): carries the running index `i`, the best index so far
(initially -1) and the minimum distance so far (initially Infinity). -/
def findClosestFrom (t : Coord) : List Coord → Nat → Int → Option ℤ → Int
  | [], _, bestIdx, _ => bestIdx
  | pt :: rest, i, bestIdx, minDist =>
    let d := dist2 pt t
    if ltInf d minDist then
      findClosestFrom t rest (i + 1) (Int.ofNat i) (some d)
    else
      findClosestFrom t rest (i + 1) bestIdx minDist

/- `findClosestIndex` helper of the segment composer: linear scan for the
route point of minimum planar squared distance to the query; returns -1
on an empty polyline. -/
def findClosestIndex (route : List Coord) (coords : Coord) : Int :=
  findClosestFrom coords route 0 (-1) none

/- ECMAScript `Array.prototype.slice` index resolution: a negative
relative index means `max(length + index, 0)`, a non-negative one means
`min(index, length)`. -/
def jsSliceBound (len : Nat) (i : Int) : Nat :=
  if i < 0 then (Int.ofNat len + i).toNat else min i.toNat len

/- ECMAScript `array.slice(start, stop)`: the elements from the resolved
start index (inclusive) to the resolved stop index (exclusive). -/
def jsSlice {α : Type} (l : List α) (s e : Int) : List α :=
  (l.take (jsSliceBound l.length e)).drop (jsSliceBound l.length s)

/- The `activeSegmentCoords`/`futureSegmentCoords` useMemo
(CollectorRouteScreen.tsx, lines 414-448).  The outer component already
guarantees `schedule`, `schedule.route` and `schedule.binSequence` are
present, so only the body after those guards is modelled.  A `none`
result models the JavaScript TypeError thrown when
`binSequence[currentStopIndex]` (or `binSequence[currentStopIndex - 1]`
with `currentStopIndex > 0`) is `undefined` and its `.location` property
is read. -/
def computeSegments (sched : Schedule) (currentStopIndex : Nat) :
    Option (List LatLng × List LatLng) :=
  let fullCoords := sched.route.map toLatLng
  match sched.binSequence.get? currentStopIndex with
  | none => none
  | some (BinEntry.strId _) => some (fullCoords, [])
  | some (BinEntry.bin currentBin) =>
    match currentBin.location with
    | none => some (fullCoords, [])
    | some cloc =>
      let currentIdx := findClosestIndex sched.route cloc
      let prevIdxOpt : Option Int :=
        if 0 < currentStopIndex then
          match sched.binSequence.get? (currentStopIndex - 1) with
          | none => none
          | some (BinEntry.strId _) => some 0
          | some (BinEntry.bin prevBin) =>
            match prevBin.location with
            | some ploc => some (findClosestIndex sched.route ploc)
            | none => some 0
        else some 0
      match prevIdxOpt with
      | none => none
      | some prevIdx =>
        some (jsSlice fullCoords prevIdx (currentIdx + 1),
              jsSlice fullCoords currentIdx (Int.ofNat fullCoords.length))

/- The pivot index the composer actually uses: the nearest polyline index
of the current stop's location. -/
def pivotIndexOf (sched : Schedule) (cloc : Coord) : Int :=
  findClosestIndex sched.route cloc

/- The reference index the composer actually uses: the nearest polyline
index of the previous stop's location when `currentStopIndex > 0` and
that stop is a populated bin with a location, and the literal polyline
index 0 otherwise. -/
def refIndexOf (sched : Schedule) (i : Nat) : Int :=
  if 0 < i then
    match sched.binSequence.get? (i - 1) with
    | some (BinEntry.bin prevBin) =>
      match prevBin.location with
      | some ploc => findClosestIndex sched.route ploc
      | none => 0
    | _ => 0
  else 0

/- The ephemeral collection-session state held by the screen. -/
structure SessionState where
  currentStopIndex : Nat
  completedStops : List (Option String)
  allBinsCollected : Bool
  activeCollection : Bool
  selectedBin : Option (BinEntry × Nat)
deriving DecidableEq, Repr

/- Session state right after the screen mounts on a freshly created
session: pointer at 0, nothing collected, collection not active. -/
def initialSession : SessionState :=
  { currentStopIndex := 0
    completedStops := []
    allBinsCollected := false
    activeCollection := false
    selectedBin := none }

/- `markBinCollected` (CollectorRouteScreen.tsx, lines 131-161).  The
first update appends `currentBin.binId` to `completedStops`; in
JavaScript `currentBin` may be a bare string (truthy unless empty, and
its `.binId` reads as `undefined`, modelled as `none`) or `undefined`
(falsy, so nothing is appended).  The second update advances the pointer
when `currentStopIndex + 1 < binSequence.length` and otherwise sets
`allBinsCollected` and clears the selected bin. -/
def markBinCollected (sched : Schedule) (s : SessionState) : SessionState :=
  let s1 :=
    match sched.binSequence.get? s.currentStopIndex with
    | some (BinEntry.bin b) =>
      { s with completedStops := s.completedStops ++ [some b.binId] }
    | some (BinEntry.strId str) =>
      if str = "" then s
      else { s with completedStops := s.completedStops ++ [none] }
    | none => s
  let totalBins := sched.binSequence.length
  let nextIndex := s.currentStopIndex + 1
  if nextIndex < totalBins then
    { s1 with currentStopIndex := nextIndex
              selectedBin :=
                (sched.binSequence.get? nextIndex).map (fun e => (e, nextIndex)) }
  else
    { s1 with allBinsCollected := true, selectedBin := none }

/- `focusOnStop` (CollectorRouteScreen.tsx, lines 164-176): returns
unchanged when the entry at `stopIndex` is missing or a bare string,
otherwise sets the current stop pointer and the selected bin (the map
camera motion has no session-state effect). -/
def focusOnStop (sched : Schedule) (s : SessionState) (stopIndex : Nat) :
    SessionState :=
  match sched.binSequence.get? stopIndex with
  | some (BinEntry.bin b) =>
    { s with currentStopIndex := stopIndex
             selectedBin := some (BinEntry.bin b, stopIndex) }
  | _ => s

/- Outcome of a bin-marker press: the new session state plus the list of
remote persistence requests the handler issued. -/
structure MarkerPressOutcome where
  state : SessionState
  statusRequests : List (String × Status)
deriving DecidableEq, Repr

/- The bin `Marker` `onPress` handler (CollectorRouteScreen.tsx, lines
596-612): highlights the pressed bin, and only when a collection is
active also jumps `currentStopIndex` to the pressed index.  The handler
issues no remote call. -/
def binMarkerPress (s : SessionState) (index : Nat) (b : Bin) :
    MarkerPressOutcome :=
  let s1 := { s with selectedBin := some (BinEntry.bin b, index) }
  let s2 := if s.activeCollection then { s1 with currentStopIndex := index } else s1
  { state := s2, statusRequests := [] }

/- Combined outcome of the awaited remote calls inside a lifecycle
handler: `ok refreshed` when every call succeeded (carrying the schedule
the server returned), `err` when any of them threw. -/
inductive RemoteResult where
  | ok : Schedule → RemoteResult
  | err : RemoteResult
deriving DecidableEq, Repr

/- Outcome of the start-collection handler. -/
structure StartOutcome where
  state : SessionState
  schedule : Schedule
  statusRequests : List (String × Status)
  alerted : Bool
deriving DecidableEq, Repr

/- `handleStartCollection` (CollectorRouteScreen.tsx, lines 90-128).
The guard rejects any status other than `scheduled` before any state
change or remote call.  Otherwise the handler FIRST resets the session
state and switches the UI to active collection, THEN awaits
`updateScheduleStatus(.., 'in-progress')` and the re-fetch; a failure
only alerts and returns, keeping the already-reset state.  On success it
caches the refreshed schedule, selects its first populated bin and calls
`focusOnStop(0)` (whose closure still reads the pre-refresh schedule). -/
def handleStartCollection (sched : Schedule) (s : SessionState)
    (remote : RemoteResult) : StartOutcome :=
  if sched.status ≠ Status.scheduled then
    { state := s, schedule := sched, statusRequests := [], alerted := true }
  else
    let s1 : SessionState :=
      { s with activeCollection := true
               completedStops := []
               allBinsCollected := false
               currentStopIndex := 0
               selectedBin := none }
    match remote with
    | RemoteResult.err =>
      { state := s1, schedule := sched
        statusRequests := [(sched.schedId, Status.inProgress)], alerted := true }
    | RemoteResult.ok refreshed =>
      let s2 :=
        match refreshed.binSequence.head? with
        | some (BinEntry.bin b) => { s1 with selectedBin := some (BinEntry.bin b, 0) }
        | _ => s1
      { state := focusOnStop sched s2 0, schedule := refreshed
        statusRequests := [(sched.schedId, Status.inProgress)], alerted := true }

/- Outcome of the finish-route handler. -/
structure FinishOutcome where
  state : SessionState
  schedule : Schedule
  statusRequests : List (String × Status)
  alerted : Bool
deriving DecidableEq, Repr

/- The Finish Route `onPress` handler (CollectorRouteScreen.tsx, lines
672-685): awaits `updateScheduleStatus(.., 'completed')`; only on
success does it cache the updated schedule and leave active collection,
while a failure alerts and changes nothing locally. -/
def finishRoutePress (sched : Schedule) (s : SessionState)
    (remote : RemoteResult) : FinishOutcome :=
  match remote with
  | RemoteResult.ok updated =>
    { state := { s with activeCollection := false }, schedule := updated
      statusRequests := [(sched.schedId, Status.completed)], alerted := false }
  | RemoteResult.err =>
    { state := s, schedule := sched
      statusRequests := [(sched.schedId, Status.completed)], alerted := true }

/- The Finish Route button is rendered only inside the active-collection
branch and only once `allBinsCollected` is true. -/
def finishButtonVisible (s : SessionState) : Bool :=
  s.activeCollection && s.allBinsCollected

/- One user-interface action on a fixed schedule, restricted to the
actions the rendered screen actually offers: the Start Collection button
(shown only for a `scheduled` schedule outside active collection), the
Mark as Collected button (shown only during active collection, before
`allBinsCollected`, for a populated current bin), and a press on a bin
marker (rendered only for populated bins with location data). -/
inductive Step (sched : Schedule) : SessionState → SessionState → Prop where
  | start : ∀ (s : SessionState) (remote : RemoteResult),
      sched.status = Status.scheduled →
      s.activeCollection = false →
      Step sched s (handleStartCollection sched s remote).state
  | mark : ∀ (s : SessionState) (b : Bin),
      s.activeCollection = true →
      s.allBinsCollected = false →
      sched.binSequence.get? s.currentStopIndex = some (BinEntry.bin b) →
      Step sched s (markBinCollected sched s)
  | select : ∀ (s : SessionState) (i : Nat) (b : Bin),
      sched.binSequence.get? i = some (BinEntry.bin b) →
      b.location ≠ none →
      Step sched s (binMarkerPress s i b).state

/- Session states reachable from a fresh session by screen actions. -/
inductive Reachable (sched : Schedule) : SessionState → Prop where
  | init : Reachable sched initialSession
  | step : ∀ s s', Reachable sched s → Step sched s s' → Reachable sched s'

/- Concrete fixtures used by counterexamples and witnesses. -/

def binA : Bin := { binId := "a", location := some (1, 0) }

def binB : Bin := { binId := "b", location := some (2, 0) }

def route3 : List Coord := [(0, 0), (1, 0), (2, 0)]

/- A two-stop schedule whose bins lie on the polyline in order. -/
def sched1 : Schedule :=
  { schedId := "s1"
    status := Status.scheduled
    binSequence := [BinEntry.bin binA, BinEntry.bin binB]
    route := route3
    areaId := none }

/- Bins placed on the polyline in reverse order of their schedule
position: the second stop snaps to an earlier polyline index than the
first. -/
def binRevA : Bin := { binId := "a", location := some (2, 0) }

def binRevB : Bin := { binId := "b", location := some (0, 0) }

def schedRev : Schedule :=
  { schedId := "s2"
    status := Status.inProgress
    binSequence := [BinEntry.bin binRevA, BinEntry.bin binRevB]
    route := route3
    areaId := none }

/- A one-stop schedule whose depot start location lies at the far end of
the polyline (nearest polyline index 2, not 0). -/
def schedDepot : Schedule :=
  { schedId := "s3"
    status := Status.inProgress
    binSequence := [BinEntry.bin binA]
    route := route3
    areaId := some { startLocation := some (2, 0), endLocation := some (2, 0) } }

/- A session state captured mid-collection, before any start action. -/
def sPre : SessionState :=
  { currentStopIndex := 1
    completedStops := [some "x"]
    allBinsCollected := false
    activeCollection := false
    selectedBin := none }

/- A terminal session state on `sched1`: both stops collected, pointer
left on the last stop, `allBinsCollected` set. -/
def sDone : SessionState :=
  { currentStopIndex := 1
    completedStops := [some "a", some "b"]
    allBinsCollected := true
    activeCollection := true
    selectedBin := none }

/- The session state produced on `sched1` by the action sequence
start, mark, select stop 0, mark, mark. -/
def exSeqState : SessionState :=
  let s1 := (handleStartCollection sched1 initialSession (RemoteResult.ok sched1)).state
  let s2 := markBinCollected sched1 s1
  let s3 := (binMarkerPress s2 0 binA).state
  let s4 := markBinCollected sched1 s3
  markBinCollected sched1 s4

/- A reasoning-friendly restatement of the `findClosestIndex` loop once
the accumulator is known to be set: carries the best index and best
distance as plain naturals and rationals. -/
def argminFrom (t : Coord) : List Coord → Nat → Nat → ℤ → Nat × ℤ
  | [], _, b, m => (b, m)
  | pt :: rest, i, b, m =>
    if dist2 pt t < m then argminFrom t rest (i + 1) i (dist2 pt t)
    else argminFrom t rest (i + 1) b m

theorem findClosestFrom_some_eq (t : Coord) :
    ∀ (l : List Coord) (i b : Nat) (m : ℤ),
      findClosestFrom t l i (Int.ofNat b) (some m)
        = Int.ofNat (argminFrom t l i b m).1 := by
  intro l
  induction l with
  | nil => intro i b m; rfl
  | cons p rest ih =>
    intro i b m
    by_cases hd : dist2 p t < m
    · simp [findClosestFrom, argminFrom, ltInf, hd]
      exact ih (i + 1) i (dist2 p t)
    · simp [findClosestFrom, argminFrom, ltInf, hd]
      exact ih (i + 1) b m

theorem argminFrom_spec (t : Coord) :
    ∀ (l : List Coord) (i b : Nat) (m : ℤ),
      (argminFrom t l i b m = (b, m) ∧
        ∀ j (hj : j < l.length), m ≤ dist2 (l.get ⟨j, hj⟩) t)
      ∨ (∃ k, ∃ hk : k < l.length,
          (argminFrom t l i b m).1 = i + k ∧
          (argminFrom t l i b m).2 = dist2 (l.get ⟨k, hk⟩) t ∧
          (argminFrom t l i b m).2 < m ∧
          (∀ j (hj : j < l.length),
            (argminFrom t l i b m).2 ≤ dist2 (l.get ⟨j, hj⟩) t) ∧
          (∀ j (hj : j < k),
            (argminFrom t l i b m).2 < dist2 (l.get ⟨j, Nat.lt_trans hj hk⟩) t)) := by
  intro l
  induction l with
  | nil =>
    intro i b m
    left
    exact ⟨rfl, fun j hj => absurd hj (Nat.not_lt_zero j)⟩
  | cons p rest ih =>
    intro i b m
    by_cases hd : dist2 p t < m
    · have h1 : argminFrom t (p :: rest) i b m
          = argminFrom t rest (i + 1) i (dist2 p t) := by
        simp [argminFrom, hd]
      rw [h1]
      rcases ih (i + 1) i (dist2 p t) with ⟨heq, hmin⟩ | ⟨k, hk, e1, e2, e3, e4, e5⟩
      · right
        refine ⟨0, Nat.succ_pos _, ?_, ?_, ?_, ?_, ?_⟩
        · rw [heq]; simp
        · rw [heq]; simp
        · rw [heq]; exact hd
        · intro j hj
          rw [heq]
          match j with
          | 0 => simp
          | j + 1 =>
            have hj' : j < rest.length := Nat.lt_of_succ_lt_succ hj
            simpa using hmin j hj'
        · intro j hj; exact absurd hj (Nat.not_lt_zero j)
      · right
        refine ⟨k + 1, Nat.succ_lt_succ hk, ?_, ?_, ?_, ?_, ?_⟩
        · rw [e1]; omega
        · simpa using e2
        · exact lt_trans e3 hd
        · intro j hj
          match j with
          | 0 => simpa using le_of_lt e3
          | j + 1 =>
            have hj' : j < rest.length := Nat.lt_of_succ_lt_succ hj
            simpa using e4 j hj'
        · intro j hj
          match j with
          | 0 => simpa using e3
          | j + 1 =>
            have hj' : j < k := Nat.lt_of_succ_lt_succ hj
            simpa using e5 j hj'
    · have h1 : argminFrom t (p :: rest) i b m = argminFrom t rest (i + 1) b m := by
        simp [argminFrom, hd]
      rw [h1]
      have hm : m ≤ dist2 p t := le_of_not_lt hd
      rcases ih (i + 1) b m with ⟨heq, hmin⟩ | ⟨k, hk, e1, e2, e3, e4, e5⟩
      · left
        refine ⟨heq, ?_⟩
        intro j hj
        match j with
        | 0 => simpa using hm
        | j + 1 =>
          have hj' : j < rest.length := Nat.lt_of_succ_lt_succ hj
          simpa using hmin j hj'
      · right
        refine ⟨k + 1, Nat.succ_lt_succ hk, ?_, ?_, ?_, ?_, ?_⟩
        · rw [e1]; omega
        · simpa using e2
        · exact e3
        · intro j hj
          match j with
          | 0 => simpa using le_of_lt (lt_of_lt_of_le e3 hm)
          | j + 1 =>
            have hj' : j < rest.length := Nat.lt_of_succ_lt_succ hj
            simpa using e4 j hj'
        · intro j hj
          match j with
          | 0 => simpa using lt_of_lt_of_le e3 hm
          | j + 1 =>
            have hj' : j < k := Nat.lt_of_succ_lt_succ hj
            simpa using e5 j hj'

/- Shared characterisation of `findClosestIndex` on a non-empty
polyline: the returned index is in range, attains the minimum planar
squared distance, and every strictly earlier index is strictly
farther. -/
theorem findClosestIndex_spec (route : List Coord) (t : Coord) (h : route ≠ []) :
    ∃ n, ∃ hn : n < route.length,
      findClosestIndex route t = Int.ofNat n ∧
      (∀ j (hj : j < route.length),
        dist2 (route.get ⟨n, hn⟩) t ≤ dist2 (route.get ⟨j, hj⟩) t) ∧
      (∀ j (hj : j < n),
        dist2 (route.get ⟨n, hn⟩) t < dist2 (route.get ⟨j, Nat.lt_trans hj hn⟩) t) := by
  match route with
  | [] => exact absurd rfl h
  | p :: rest =>
    have h0 : findClosestIndex (p :: rest) t
        = findClosestFrom t rest 1 (Int.ofNat 0) (some (dist2 p t)) := by
      simp [findClosestIndex, findClosestFrom, ltInf]
    rw [h0, findClosestFrom_some_eq]
    rcases argminFrom_spec t rest 1 0 (dist2 p t) with ⟨heq, hmin⟩ | ⟨k, hk, e1, e2, e3, e4, e5⟩
    · refine ⟨0, Nat.succ_pos _, ?_, ?_, ?_⟩
      · rw [heq]
      · intro j hj
        match j with
        | 0 => simp
        | j + 1 => simpa using hmin j (Nat.lt_of_succ_lt_succ hj)
      · intro j hj
        exact absurd hj (Nat.not_lt_zero j)
    · have e1' : (argminFrom t rest 1 0 (dist2 p t)).1 = k + 1 := by omega
      refine ⟨k + 1, Nat.succ_lt_succ hk, ?_, ?_, ?_⟩
      · rw [e1']
      · intro j hj
        have hv : dist2 ((p :: rest).get ⟨k + 1, Nat.succ_lt_succ hk⟩) t
            = (argminFrom t rest 1 0 (dist2 p t)).2 := by
          rw [e2]; simp
        rw [hv]
        match j with
        | 0 => simpa using le_of_lt e3
        | j + 1 => simpa using e4 j (Nat.lt_of_succ_lt_succ hj)
      · intro j hj
        have hv : dist2 ((p :: rest).get ⟨k + 1, Nat.succ_lt_succ hk⟩) t
            = (argminFrom t rest 1 0 (dist2 p t)).2 := by
          rw [e2]; simp
        rw [hv]
        match j with
        | 0 => simpa using e3
        | j + 1 => simpa using e5 j (Nat.lt_of_succ_lt_succ hj)

theorem jsSliceBound_ofNat (len a : Nat) : jsSliceBound len (Int.ofNat a) = min a len := by
  unfold jsSliceBound
  have hneg : ¬ (Int.ofNat a < 0) := Int.not_lt.mpr (Int.ofNat_zero_le a)
  rw [if_neg hneg]
  rfl

theorem jsSlice_ofNat {α : Type} (l : List α) (a bnd : Nat) :
    jsSlice l (Int.ofNat a) (Int.ofNat bnd) = (l.take bnd).drop a := by
  unfold jsSlice
  rw [jsSliceBound_ofNat, jsSliceBound_ofNat]
  have htake : l.take (min bnd l.length) = l.take bnd := by
    rcases Nat.le_total bnd l.length with hb | hb
    · rw [Nat.min_eq_left hb]
    · rw [Nat.min_eq_right hb, List.take_length, List.take_of_length_le hb]
  rw [htake]
  rcases Nat.le_total a l.length with ha | ha
  · rw [Nat.min_eq_left ha]
  · rw [Nat.min_eq_right ha]
    have h1 : (l.take bnd).length ≤ l.length := by
      rw [List.length_take]; omega
    rw [List.drop_of_length_le h1, List.drop_of_length_le (le_trans h1 ha)]

theorem jsSlice_ofNat_length {α : Type} (l : List α) (a : Nat) :
    jsSlice l (Int.ofNat a) (Int.ofNat l.length) = l.drop a := by
  rw [jsSlice_ofNat, List.take_length]

theorem getLast_drop_take {α : Type} (l : List α) (r c : Nat) (hrc : r ≤ c)
    (hc : c < l.length) :
    ((l.take (c + 1)).drop r).getLast? = l.get? c := by
  have h1 : l.take (c + 1) = l.take c ++ [l.get ⟨c, hc⟩] := by
    rw [List.take_succ]
    have : l.get? c = some (l.get ⟨c, hc⟩) := List.get?_eq_get hc
    simp only [← List.get?_eq_getElem?, this, Option.toList_some]
  rw [h1, List.drop_append_of_le_length (by rw [List.length_take]; omega),
    List.getLast?_concat, List.get?_eq_get hc]

theorem head_drop_get {α : Type} (l : List α) (c : Nat) :
    (l.drop c).head? = l.get? c := by
  rw [← List.get?_zero, List.get?_drop, Nat.add_zero]

theorem drop_take_union {α : Type} (l : List α) (r c : Nat) (hrc : r ≤ c)
    (hc : c < l.length) :
    ((l.take (c + 1)).drop r) ++ (l.drop c).tail = l.drop r := by
  rw [List.tail_drop]
  conv_rhs => rw [← List.take_append_drop (c + 1) l]
  rw [List.drop_append_of_le_length (by rw [List.length_take]; omega)]

/- Shared computation lemma: on a populated, located current stop the
composer produces exactly the two slices at the reference and pivot
indices it derives. -/
theorem computeSegments_resolved (sched : Schedule) (i : Nat) (b : Bin) (cloc : Coord)
    (hb : sched.binSequence.get? i = some (BinEntry.bin b))
    (hloc : b.location = some cloc) :
    computeSegments sched i =
      some (jsSlice (sched.route.map toLatLng) (refIndexOf sched i)
              (pivotIndexOf sched cloc + 1),
            jsSlice (sched.route.map toLatLng) (pivotIndexOf sched cloc)
              (Int.ofNat (sched.route.map toLatLng).length)) := by
  have hi : i < sched.binSequence.length := (List.get?_eq_some.mp hb).1
  simp only [computeSegments, refIndexOf, pivotIndexOf, hb, hloc]
  by_cases h0 : 0 < i
  · simp only [if_pos h0]
    have hi1 : i - 1 < sched.binSequence.length := by omega
    rcases hg : sched.binSequence.get? (i - 1) with _ | e
    · exact absurd (List.get?_eq_none.mp hg) (by omega)
    · rcases e with s | pb
      · rfl
      · dsimp only
        rcases hl : pb.location with _ | ploc
        · rfl
        · rfl
  · simp only [if_neg h0]

/- On a non-empty polyline the reference index the composer uses is a
natural number. -/
theorem refIndexOf_nonneg (sched : Schedule) (i : Nat) (hroute : sched.route ≠ []) :
    ∃ r : Nat, refIndexOf sched i = Int.ofNat r := by
  unfold refIndexOf
  by_cases h0 : 0 < i
  · rw [if_pos h0]
    rcases hg : sched.binSequence.get? (i - 1) with _ | e
    · exact ⟨0, rfl⟩
    · rcases e with s | pb
      · exact ⟨0, rfl⟩
      · dsimp only
        rcases hl : pb.location with _ | ploc
        · exact ⟨0, rfl⟩
        · obtain ⟨n, hn, he, -, -⟩ := findClosestIndex_spec sched.route ploc hroute
          exact ⟨n, he⟩
  · rw [if_neg h0]
    exact ⟨0, rfl⟩

/-- C3: for every non-empty route polyline and every query coordinate,
`findClosestIndex` returns a deterministic integer in `[0, route.length)`
whose planar squared distance to the query has no strictly smaller
alternative among the route points; when several points are equidistant
it returns the lowest such index (every strictly earlier index is
strictly farther). -/
theorem nearest_index_minimal_lowest (route : List Coord) (t : Coord)
    (h : route ≠ []) :
    ∃ n, ∃ hn : n < route.length,
      findClosestIndex route t = Int.ofNat n ∧
      (∀ j (hj : j < route.length),
        dist2 (route.get ⟨n, hn⟩) t ≤ dist2 (route.get ⟨j, hj⟩) t) ∧
      (∀ j (hj : j < n),
        dist2 (route.get ⟨n, hn⟩) t < dist2 (route.get ⟨j, Nat.lt_trans hj hn⟩) t) :=
  findClosestIndex_spec route t h

theorem nearest_index_minimal_lowest_witness :
    route3 ≠ [] ∧
    (∃ n, ∃ hn : n < route3.length,
      findClosestIndex route3 ((2 : ℤ), (0 : ℤ)) = Int.ofNat n ∧
      (∀ j (hj : j < route3.length),
        dist2 (route3.get ⟨n, hn⟩) ((2 : ℤ), (0 : ℤ))
          ≤ dist2 (route3.get ⟨j, hj⟩) ((2 : ℤ), (0 : ℤ))) ∧
      (∀ j (hj : j < n),
        dist2 (route3.get ⟨n, hn⟩) ((2 : ℤ), (0 : ℤ))
          < dist2 (route3.get ⟨j, Nat.lt_trans hj hn⟩) ((2 : ℤ), (0 : ℤ)))) :=
  ⟨by decide, nearest_index_minimal_lowest route3 ((2 : ℤ), (0 : ℤ)) (by decide)⟩

/-- C1 (amended): for a populated, located current stop the composer
returns exactly `active = fullCoords.slice(refIndex, pivotIndex + 1)`
and `future = fullCoords.slice(pivotIndex)`; whenever
`refIndex ≤ pivotIndex` the two segments share exactly the pivot
coordinate (`active` ends and `future` begins with the polyline point at
the pivot index) and their union without the duplicated pivot is the
contiguous polyline sub-range from `refIndex` to the end. -/
theorem active_future_share_pivot (sched : Schedule) (i : Nat) (b : Bin)
    (cloc : Coord)
    (hroute : sched.route ≠ [])
    (hb : sched.binSequence.get? i = some (BinEntry.bin b))
    (hloc : b.location = some cloc)
    (hord : refIndexOf sched i ≤ pivotIndexOf sched cloc) :
    ∃ r c : Nat,
      refIndexOf sched i = Int.ofNat r ∧
      pivotIndexOf sched cloc = Int.ofNat c ∧
      r ≤ c ∧ c < (sched.route.map toLatLng).length ∧
      computeSegments sched i =
        some (jsSlice (sched.route.map toLatLng) (refIndexOf sched i)
                (pivotIndexOf sched cloc + 1),
              jsSlice (sched.route.map toLatLng) (pivotIndexOf sched cloc)
                (Int.ofNat (sched.route.map toLatLng).length)) ∧
      (jsSlice (sched.route.map toLatLng) (refIndexOf sched i)
          (pivotIndexOf sched cloc + 1)).getLast?
        = (sched.route.map toLatLng).get? c ∧
      (jsSlice (sched.route.map toLatLng) (pivotIndexOf sched cloc)
          (Int.ofNat (sched.route.map toLatLng).length)).head?
        = (sched.route.map toLatLng).get? c ∧
      (sched.route.map toLatLng).get? c ≠ none ∧
      (jsSlice (sched.route.map toLatLng) (refIndexOf sched i)
          (pivotIndexOf sched cloc + 1)) ++
        (jsSlice (sched.route.map toLatLng) (pivotIndexOf sched cloc)
          (Int.ofNat (sched.route.map toLatLng).length)).tail
        = (sched.route.map toLatLng).drop r := by
  obtain ⟨r, hr⟩ := refIndexOf_nonneg sched i hroute
  obtain ⟨c, hc, hpiv, -, -⟩ := findClosestIndex_spec sched.route cloc hroute
  have hpiv' : pivotIndexOf sched cloc = Int.ofNat c := hpiv
  have hcl : c < (sched.route.map toLatLng).length := by
    rw [List.length_map]; exact hc
  have hrc : r ≤ c := by
    rw [hr, hpiv'] at hord
    exact Int.ofNat_le.mp hord
  have hA : jsSlice (sched.route.map toLatLng) (refIndexOf sched i)
      (pivotIndexOf sched cloc + 1)
      = ((sched.route.map toLatLng).take (c + 1)).drop r := by
    rw [hr, hpiv']
    have h1 : (Int.ofNat c + 1) = Int.ofNat (c + 1) := rfl
    rw [h1, jsSlice_ofNat]
  have hF : jsSlice (sched.route.map toLatLng) (pivotIndexOf sched cloc)
      (Int.ofNat (sched.route.map toLatLng).length)
      = (sched.route.map toLatLng).drop c := by
    rw [hpiv', jsSlice_ofNat_length]
  refine ⟨r, c, hr, hpiv', hrc, hcl,
    computeSegments_resolved sched i b cloc hb hloc, ?_, ?_, ?_, ?_⟩
  · rw [hA]
    exact getLast_drop_take (sched.route.map toLatLng) r c hrc hcl
  · rw [hF]
    exact head_drop_get (sched.route.map toLatLng) c
  · rw [List.get?_eq_get hcl]
    simp
  · rw [hA, hF]
    exact drop_take_union (sched.route.map toLatLng) r c hrc hcl

theorem active_future_share_pivot_counterexample :
    schedRev.binSequence.get? 1 = some (BinEntry.bin binRevB) ∧
    binRevB.location = some ((0 : ℤ), (0 : ℤ)) ∧
    refIndexOf schedRev 1 = 2 ∧
    pivotIndexOf schedRev ((0 : ℤ), (0 : ℤ)) = 0 ∧
    computeSegments schedRev 1 =
      some ([], [((0 : ℤ), (0 : ℤ)), ((0 : ℤ), (1 : ℤ)), ((0 : ℤ), (2 : ℤ))]) ∧
    (List.filter
      (fun p => decide
        (p ∈ [((0 : ℤ), (0 : ℤ)), ((0 : ℤ), (1 : ℤ)), ((0 : ℤ), (2 : ℤ))]))
      ([] : List LatLng)).length = 0 := by
  exact ⟨by decide, by decide, by decide, by decide, by decide, by decide⟩

theorem active_future_share_pivot_witness :
    (sched1.route ≠ [] ∧
      sched1.binSequence.get? 1 = some (BinEntry.bin binB) ∧
      binB.location = some ((2 : ℤ), (0 : ℤ)) ∧
      refIndexOf sched1 1 ≤ pivotIndexOf sched1 ((2 : ℤ), (0 : ℤ))) ∧
    (∃ r c : Nat,
      refIndexOf sched1 1 = Int.ofNat r ∧
      pivotIndexOf sched1 ((2 : ℤ), (0 : ℤ)) = Int.ofNat c ∧
      r ≤ c ∧ c < (sched1.route.map toLatLng).length ∧
      computeSegments sched1 1 =
        some (jsSlice (sched1.route.map toLatLng) (refIndexOf sched1 1)
                (pivotIndexOf sched1 ((2 : ℤ), (0 : ℤ)) + 1),
              jsSlice (sched1.route.map toLatLng)
                (pivotIndexOf sched1 ((2 : ℤ), (0 : ℤ)))
                (Int.ofNat (sched1.route.map toLatLng).length)) ∧
      (jsSlice (sched1.route.map toLatLng) (refIndexOf sched1 1)
          (pivotIndexOf sched1 ((2 : ℤ), (0 : ℤ)) + 1)).getLast?
        = (sched1.route.map toLatLng).get? c ∧
      (jsSlice (sched1.route.map toLatLng)
          (pivotIndexOf sched1 ((2 : ℤ), (0 : ℤ)))
          (Int.ofNat (sched1.route.map toLatLng).length)).head?
        = (sched1.route.map toLatLng).get? c ∧
      (sched1.route.map toLatLng).get? c ≠ none ∧
      (jsSlice (sched1.route.map toLatLng) (refIndexOf sched1 1)
          (pivotIndexOf sched1 ((2 : ℤ), (0 : ℤ)) + 1)) ++
        (jsSlice (sched1.route.map toLatLng)
          (pivotIndexOf sched1 ((2 : ℤ), (0 : ℤ)))
          (Int.ofNat (sched1.route.map toLatLng).length)).tail
        = (sched1.route.map toLatLng).drop r) :=
  ⟨⟨by decide, by decide, by decide, by decide⟩,
    active_future_share_pivot sched1 1 binB ((2 : ℤ), (0 : ℤ))
      (by decide) (by decide) (by decide) (by decide)⟩

/-- C2 (amended): the pivot point of the composer is always the current
stop's location (also once all stops are collected, because the stop
pointer then stays on the last stop), never the depot-end location, and
the reference index is the nearest polyline index of the previous stop's
location when `currentStopIndex > 0` and that stop is populated with a
location, and the literal polyline index 0 (not the nearest index of the
depot-start location) otherwise; the composer never reads the depot
locations in `areaId`. -/
theorem segments_pivot_current_ref_prev (sched : Schedule) (i : Nat) (b : Bin)
    (cloc : Coord)
    (hb : sched.binSequence.get? i = some (BinEntry.bin b))
    (hloc : b.location = some cloc) :
    computeSegments sched i =
      some (jsSlice (sched.route.map toLatLng) (refIndexOf sched i)
              (pivotIndexOf sched cloc + 1),
            jsSlice (sched.route.map toLatLng) (pivotIndexOf sched cloc)
              (Int.ofNat (sched.route.map toLatLng).length)) ∧
    pivotIndexOf sched cloc = findClosestIndex sched.route cloc ∧
    (∀ a : Option Area,
      computeSegments { sched with areaId := a } i = computeSegments sched i) ∧
    (∀ pb : Bin, ∀ ploc : Coord, 0 < i →
      sched.binSequence.get? (i - 1) = some (BinEntry.bin pb) →
      pb.location = some ploc →
      refIndexOf sched i = findClosestIndex sched.route ploc) ∧
    (i = 0 → refIndexOf sched i = 0) := by
  refine ⟨computeSegments_resolved sched i b cloc hb hloc, rfl, ?_, ?_, ?_⟩
  · intro a
    rfl
  · intro pb ploc h0 hg hl
    unfold refIndexOf
    rw [if_pos h0, hg]
    dsimp only
    rw [hl]
  · intro h0
    unfold refIndexOf
    rw [if_neg (by omega)]

theorem segments_ignore_depot_counterexample :
    schedDepot.areaId =
      some { startLocation := some ((2 : ℤ), (0 : ℤ))
             endLocation := some ((2 : ℤ), (0 : ℤ)) } ∧
    findClosestIndex schedDepot.route ((2 : ℤ), (0 : ℤ)) = 2 ∧
    schedDepot.binSequence.get? 0 = some (BinEntry.bin binA) ∧
    binA.location = some ((1 : ℤ), (0 : ℤ)) ∧
    pivotIndexOf schedDepot ((1 : ℤ), (0 : ℤ)) = 1 ∧
    jsSlice (schedDepot.route.map toLatLng)
        (findClosestIndex schedDepot.route ((2 : ℤ), (0 : ℤ)))
        (pivotIndexOf schedDepot ((1 : ℤ), (0 : ℤ)) + 1) = ([] : List LatLng) ∧
    computeSegments schedDepot 0 =
      some ([((0 : ℤ), (0 : ℤ)), ((0 : ℤ), (1 : ℤ))],
            [((0 : ℤ), (1 : ℤ)), ((0 : ℤ), (2 : ℤ))]) ∧
    ([((0 : ℤ), (0 : ℤ)), ((0 : ℤ), (1 : ℤ))] : List LatLng) ≠ [] := by
  exact ⟨by decide, by decide, by decide, by decide, by decide, by decide,
    by decide, by decide⟩

theorem segments_pivot_current_ref_prev_witness :
    (schedDepot.binSequence.get? 0 = some (BinEntry.bin binA) ∧
      binA.location = some ((1 : ℤ), (0 : ℤ))) ∧
    (computeSegments schedDepot 0 =
      some (jsSlice (schedDepot.route.map toLatLng) (refIndexOf schedDepot 0)
              (pivotIndexOf schedDepot ((1 : ℤ), (0 : ℤ)) + 1),
            jsSlice (schedDepot.route.map toLatLng)
              (pivotIndexOf schedDepot ((1 : ℤ), (0 : ℤ)))
              (Int.ofNat (schedDepot.route.map toLatLng).length)) ∧
    pivotIndexOf schedDepot ((1 : ℤ), (0 : ℤ))
      = findClosestIndex schedDepot.route ((1 : ℤ), (0 : ℤ)) ∧
    (∀ a : Option Area,
      computeSegments { schedDepot with areaId := a } 0
        = computeSegments schedDepot 0) ∧
    (∀ pb : Bin, ∀ ploc : Coord, 0 < 0 →
      schedDepot.binSequence.get? (0 - 1) = some (BinEntry.bin pb) →
      pb.location = some ploc →
      refIndexOf schedDepot 0 = findClosestIndex schedDepot.route ploc) ∧
    (0 = 0 → refIndexOf schedDepot 0 = 0)) :=
  ⟨⟨by decide, by decide⟩,
    segments_pivot_current_ref_prev schedDepot 0 binA ((1 : ℤ), (0 : ℤ))
      (by decide) (by decide)⟩

/- Further concrete fixtures for the session-state claims. -/

def sMid : SessionState :=
  { currentStopIndex := 0
    completedStops := []
    allBinsCollected := false
    activeCollection := true
    selectedBin := none }

def schedCompleted : Schedule :=
  { schedId := "s1"
    status := Status.completed
    binSequence := [BinEntry.bin binA, BinEntry.bin binB]
    route := route3
    areaId := none }

/- Frame helper: focusing a stop never touches the completed list, the
all-done flag or the active-collection flag. -/
theorem focusOnStop_fields (sched : Schedule) (s : SessionState) (i : Nat) :
    (focusOnStop sched s i).completedStops = s.completedStops ∧
    (focusOnStop sched s i).allBinsCollected = s.allBinsCollected ∧
    (focusOnStop sched s i).activeCollection = s.activeCollection := by
  unfold focusOnStop
  rcases hg : sched.binSequence.get? i with _ | e
  · exact ⟨rfl, rfl, rfl⟩
  · rcases e with str | b
    · exact ⟨rfl, rfl, rfl⟩
    · exact ⟨rfl, rfl, rfl⟩

/- Shared computation: after a permitted start action the session is in
active collection with an empty completed list and a cleared done
flag. -/
theorem start_state_fields (sched : Schedule) (s : SessionState)
    (remote : RemoteResult) (hsched : sched.status = Status.scheduled) :
    (handleStartCollection sched s remote).state.activeCollection = true ∧
    (handleStartCollection sched s remote).state.completedStops = [] ∧
    (handleStartCollection sched s remote).state.allBinsCollected = false := by
  have hne : ¬ (sched.status ≠ Status.scheduled) := by simp [hsched]
  unfold handleStartCollection
  rw [if_neg hne]
  cases remote with
  | err => exact ⟨rfl, rfl, rfl⟩
  | ok refreshed =>
    dsimp only
    rcases hh : refreshed.binSequence.head? with _ | e
    · refine ⟨?_, ?_, ?_⟩
      · rw [(focusOnStop_fields _ _ _).2.2]
      · rw [(focusOnStop_fields _ _ _).1]
      · rw [(focusOnStop_fields _ _ _).2.1]
    · rcases e with str | b
      · refine ⟨?_, ?_, ?_⟩
        · rw [(focusOnStop_fields _ _ _).2.2]
        · rw [(focusOnStop_fields _ _ _).1]
        · rw [(focusOnStop_fields _ _ _).2.1]
      · refine ⟨?_, ?_, ?_⟩
        · rw [(focusOnStop_fields _ _ _).2.2]
        · rw [(focusOnStop_fields _ _ _).1]
        · rw [(focusOnStop_fields _ _ _).2.1]

/- Shared computation: marking a populated current bin appends exactly
its id to the completed list. -/
theorem mark_completed_append (sched : Schedule) (s : SessionState) (b : Bin)
    (hb : sched.binSequence.get? s.currentStopIndex = some (BinEntry.bin b)) :
    (markBinCollected sched s).completedStops
      = s.completedStops ++ [some b.binId] := by
  unfold markBinCollected
  rw [hb]
  by_cases hlt : s.currentStopIndex + 1 < sched.binSequence.length
  · simp [hlt]
  · simp [hlt]

/- Frame helper: a marker press never touches the completed list. -/
theorem select_completed (s : SessionState) (i : Nat) (b : Bin) :
    (binMarkerPress s i b).state.completedStops = s.completedStops := by
  unfold binMarkerPress
  by_cases hact : s.activeCollection
  · simp [hact]
  · simp [hact]

/-- C4: whenever `allStopsDone` is false, marking the (populated) current
stop appends its id to `completedStops`; then, if
`currentStopIndex + 1 < stops.length`, the pointer advances by one and
the done flag stays false, and otherwise the pointer is unchanged and
`allStopsDone` is set. -/
theorem mark_collected_advances (sched : Schedule) (s : SessionState) (b : Bin)
    (hdone : s.allBinsCollected = false)
    (hb : sched.binSequence.get? s.currentStopIndex = some (BinEntry.bin b)) :
    (markBinCollected sched s).completedStops
      = s.completedStops ++ [some b.binId] ∧
    (s.currentStopIndex + 1 < sched.binSequence.length →
      (markBinCollected sched s).currentStopIndex = s.currentStopIndex + 1 ∧
      (markBinCollected sched s).allBinsCollected = false) ∧
    (¬ s.currentStopIndex + 1 < sched.binSequence.length →
      (markBinCollected sched s).currentStopIndex = s.currentStopIndex ∧
      (markBinCollected sched s).allBinsCollected = true) := by
  refine ⟨mark_completed_append sched s b hb, ?_, ?_⟩
  · intro hlt
    unfold markBinCollected
    rw [hb]
    simp [hlt, hdone]
  · intro hlt
    unfold markBinCollected
    rw [hb]
    simp [hlt]

theorem mark_collected_advances_witness :
    (sMid.allBinsCollected = false ∧
      sched1.binSequence.get? sMid.currentStopIndex = some (BinEntry.bin binA)) ∧
    ((markBinCollected sched1 sMid).completedStops
      = sMid.completedStops ++ [some binA.binId] ∧
    (sMid.currentStopIndex + 1 < sched1.binSequence.length →
      (markBinCollected sched1 sMid).currentStopIndex = sMid.currentStopIndex + 1 ∧
      (markBinCollected sched1 sMid).allBinsCollected = false) ∧
    (¬ sMid.currentStopIndex + 1 < sched1.binSequence.length →
      (markBinCollected sched1 sMid).currentStopIndex = sMid.currentStopIndex ∧
      (markBinCollected sched1 sMid).allBinsCollected = true)) :=
  ⟨⟨by decide, by decide⟩,
    mark_collected_advances sched1 sMid binA (by decide) (by decide)⟩

theorem mark_after_done_counterexample :
    sDone.allBinsCollected = true ∧
    (markBinCollected sched1 sDone).currentStopIndex = sDone.currentStopIndex ∧
    (markBinCollected sched1 sDone).allBinsCollected = true ∧
    (markBinCollected sched1 sDone).completedStops
      = [some "a", some "b", some "b"] ∧
    (markBinCollected sched1 sDone).completedStops ≠ sDone.completedStops := by
  exact ⟨by decide, by decide, by decide, by decide, by decide⟩

/-- C5 (amended): once `allStopsDone` is true with the pointer resting on
the last (populated) stop, calling `markBinCollected` again does not
error, does not move the pointer, and leaves `allStopsDone` true — but it
appends the current stop's id to `completedStopIds` once more, producing
a duplicate, instead of leaving `completedStopIds` unchanged.  (In the
rendered screen this call is unreachable: once `allBinsCollected` is true
the Mark as Collected button is replaced by Finish Route.) -/
theorem mark_after_done_appends_duplicate (sched : Schedule) (s : SessionState)
    (b : Bin)
    (hdone : s.allBinsCollected = true)
    (hb : sched.binSequence.get? s.currentStopIndex = some (BinEntry.bin b))
    (hlast : ¬ s.currentStopIndex + 1 < sched.binSequence.length) :
    (markBinCollected sched s).currentStopIndex = s.currentStopIndex ∧
    (markBinCollected sched s).allBinsCollected = true ∧
    (markBinCollected sched s).activeCollection = s.activeCollection ∧
    (markBinCollected sched s).completedStops
      = s.completedStops ++ [some b.binId] := by
  unfold markBinCollected
  rw [hb]
  simp [hlast]

theorem mark_after_done_appends_duplicate_witness :
    (sDone.allBinsCollected = true ∧
      sched1.binSequence.get? sDone.currentStopIndex = some (BinEntry.bin binB) ∧
      ¬ sDone.currentStopIndex + 1 < sched1.binSequence.length) ∧
    ((markBinCollected sched1 sDone).currentStopIndex = sDone.currentStopIndex ∧
    (markBinCollected sched1 sDone).allBinsCollected = true ∧
    (markBinCollected sched1 sDone).activeCollection = sDone.activeCollection ∧
    (markBinCollected sched1 sDone).completedStops
      = sDone.completedStops ++ [some binB.binId]) :=
  ⟨⟨by decide, by decide, by decide⟩,
    mark_after_done_appends_duplicate sched1 sDone binB
      (by decide) (by decide) (by decide)⟩

theorem completed_length_counterexample :
    Reachable sched1 exSeqState ∧
    exSeqState.completedStops.length = 3 ∧
    sched1.binSequence.length = 2 ∧
    ¬ exSeqState.completedStops.length ≤ sched1.binSequence.length := by
  refine ⟨?_, by decide, by decide, by decide⟩
  have h1 : Reachable sched1
      (handleStartCollection sched1 initialSession (RemoteResult.ok sched1)).state :=
    Reachable.step _ _ Reachable.init
      (Step.start initialSession (RemoteResult.ok sched1) (by decide) (by decide))
  have h2 : Reachable sched1
      (markBinCollected sched1
        (handleStartCollection sched1 initialSession (RemoteResult.ok sched1)).state) :=
    Reachable.step _ _ h1 (Step.mark _ binA (by decide) (by decide) (by decide))
  have h3 : Reachable sched1
      ((binMarkerPress
        (markBinCollected sched1
          (handleStartCollection sched1 initialSession (RemoteResult.ok sched1)).state)
        0 binA).state) :=
    Reachable.step _ _ h2 (Step.select _ 0 binA (by decide) (by decide))
  have h4 : Reachable sched1
      (markBinCollected sched1
        ((binMarkerPress
          (markBinCollected sched1
            (handleStartCollection sched1 initialSession (RemoteResult.ok sched1)).state)
          0 binA).state)) :=
    Reachable.step _ _ h3 (Step.mark _ binA (by decide) (by decide) (by decide))
  exact Reachable.step _ _ h4 (Step.mark _ binB (by decide) (by decide) (by decide))

/-- C6 (amended): in every session state reachable from a fresh session
by start, mark-collected and select-stop actions, every entry of
`completedStops` is the id of some populated bin of the schedule's stop
sequence (so `completedStopIds ⊆ {s.id : s ∈ stops}` as sets); the
companion length bound of the original claim fails because
`completedStops` is a list that can collect duplicate ids. -/
theorem completed_subset_reachable (sched : Schedule) (s : SessionState)
    (h : Reachable sched s) :
    ∀ x ∈ s.completedStops, ∃ b : Bin,
      BinEntry.bin b ∈ sched.binSequence ∧ x = some b.binId := by
  induction h with
  | init =>
    intro x hx
    exact absurd hx (List.not_mem_nil x)
  | step s0 s1 hr hstep ih =>
    cases hstep with
    | start remote hsched hact =>
      intro x hx
      rw [(start_state_fields sched s0 remote hsched).2.1] at hx
      exact absurd hx (List.not_mem_nil x)
    | mark b hact hdone hb =>
      intro x hx
      rw [mark_completed_append sched s0 b hb] at hx
      rcases List.mem_append.mp hx with hx1 | hx2
      · exact ih x hx1
      · have hxb : x = some b.binId := by simpa using hx2
        exact ⟨b, List.get?_mem hb, hxb⟩
    | select i b hb hl =>
      intro x hx
      rw [select_completed s0 i b] at hx
      exact ih x hx

theorem completed_subset_reachable_witness :
    Reachable sched1 (markBinCollected sched1
      (handleStartCollection sched1 initialSession RemoteResult.err).state) ∧
    (∀ x ∈ (markBinCollected sched1
        (handleStartCollection sched1 initialSession RemoteResult.err).state).completedStops,
      ∃ b : Bin, BinEntry.bin b ∈ sched1.binSequence ∧ x = some b.binId) := by
  have h1 : Reachable sched1
      (handleStartCollection sched1 initialSession RemoteResult.err).state :=
    Reachable.step _ _ Reachable.init
      (Step.start initialSession RemoteResult.err (by decide) (by decide))
  have h2 : Reachable sched1 (markBinCollected sched1
      (handleStartCollection sched1 initialSession RemoteResult.err).state) :=
    Reachable.step _ _ h1 (Step.mark _ binA (by decide) (by decide) (by decide))
  exact ⟨h2, completed_subset_reachable sched1 _ h2⟩

theorem start_failure_keeps_reset_counterexample :
    sched1.status = Status.scheduled ∧
    sPre.activeCollection = false ∧
    sPre.completedStops = [some "x"] ∧
    (handleStartCollection sched1 sPre RemoteResult.err).statusRequests
      = [("s1", Status.inProgress)] ∧
    (handleStartCollection sched1 sPre RemoteResult.err).state.activeCollection
      = true ∧
    (handleStartCollection sched1 sPre RemoteResult.err).state.completedStops
      = [] ∧
    (handleStartCollection sched1 sPre RemoteResult.err).state ≠ sPre := by
  exact ⟨by decide, by decide, by decide, by decide, by decide, by decide,
    by decide⟩

/-- C7 (amended): for a `scheduled` schedule the start action resets the
stop tracker and switches the UI into active collection immediately,
before the remote transition is attempted; when persistence fails the
handler only alerts and returns, keeping the already-reset local state
(it is not rolled back to the pre-action state) and the unchanged cached
schedule, so a user-initiated retry re-runs the same transition from the
reset state. -/
theorem start_reset_precedes_persistence (sched : Schedule) (s : SessionState)
    (hsched : sched.status = Status.scheduled) :
    (handleStartCollection sched s RemoteResult.err).state
      = { s with activeCollection := true, completedStops := [],
                 allBinsCollected := false, currentStopIndex := 0,
                 selectedBin := none } ∧
    (handleStartCollection sched s RemoteResult.err).schedule = sched ∧
    (handleStartCollection sched s RemoteResult.err).statusRequests
      = [(sched.schedId, Status.inProgress)] ∧
    (handleStartCollection sched s RemoteResult.err).alerted = true ∧
    (∀ u : Schedule,
      (handleStartCollection sched s (RemoteResult.ok u)).state.activeCollection
        = true ∧
      (handleStartCollection sched s (RemoteResult.ok u)).state.completedStops
        = []) := by
  have hne : ¬ (sched.status ≠ Status.scheduled) := by simp [hsched]
  refine ⟨?_, ?_, ?_, ?_, ?_⟩
  · unfold handleStartCollection; rw [if_neg hne]
  · unfold handleStartCollection; rw [if_neg hne]
  · unfold handleStartCollection; rw [if_neg hne]
  · unfold handleStartCollection; rw [if_neg hne]
  · intro u
    exact ⟨(start_state_fields sched s (RemoteResult.ok u) hsched).1,
           (start_state_fields sched s (RemoteResult.ok u) hsched).2.1⟩

theorem start_reset_precedes_persistence_witness :
    sched1.status = Status.scheduled ∧
    ((handleStartCollection sched1 sPre RemoteResult.err).state
      = { sPre with activeCollection := true, completedStops := [],
                    allBinsCollected := false, currentStopIndex := 0,
                    selectedBin := none } ∧
    (handleStartCollection sched1 sPre RemoteResult.err).schedule = sched1 ∧
    (handleStartCollection sched1 sPre RemoteResult.err).statusRequests
      = [(sched1.schedId, Status.inProgress)] ∧
    (handleStartCollection sched1 sPre RemoteResult.err).alerted = true ∧
    (∀ u : Schedule,
      (handleStartCollection sched1 sPre (RemoteResult.ok u)).state.activeCollection
        = true ∧
      (handleStartCollection sched1 sPre (RemoteResult.ok u)).state.completedStops
        = [])) :=
  ⟨by decide, start_reset_precedes_persistence sched1 sPre (by decide)⟩

/-- C8: the finish action requests exactly the remote transition to
`completed`; only when that call succeeds does local state advance (the
updated schedule is cached and active collection ends, other session
fields untouched), while on failure the session state and the cached
schedule are exactly as before and the error is surfaced for retry; the
Finish Route button is rendered only during active collection once
`allBinsCollected` is true. -/
theorem finish_persists_before_local (sched : Schedule) (s : SessionState) :
    (∀ u : Schedule,
      finishRoutePress sched s (RemoteResult.ok u)
        = { state := { s with activeCollection := false }, schedule := u,
            statusRequests := [(sched.schedId, Status.completed)],
            alerted := false }) ∧
    finishRoutePress sched s RemoteResult.err
      = { state := s, schedule := sched,
          statusRequests := [(sched.schedId, Status.completed)],
          alerted := true } ∧
    (finishButtonVisible s = true
      ↔ (s.activeCollection = true ∧ s.allBinsCollected = true)) := by
  refine ⟨fun u => rfl, rfl, ?_⟩
  cases ha : s.activeCollection <;> cases hd : s.allBinsCollected <;>
    simp [finishButtonVisible, ha, hd]

theorem finish_persists_before_local_witness :
    (∀ u : Schedule,
      finishRoutePress sched1 sDone (RemoteResult.ok u)
        = { state := { sDone with activeCollection := false }, schedule := u,
            statusRequests := [(sched1.schedId, Status.completed)],
            alerted := false }) ∧
    finishRoutePress sched1 sDone RemoteResult.err
      = { state := sDone, schedule := sched1,
          statusRequests := [(sched1.schedId, Status.completed)],
          alerted := true } ∧
    (finishButtonVisible sDone = true
      ↔ (sDone.activeCollection = true ∧ sDone.allBinsCollected = true)) :=
  finish_persists_before_local sched1 sDone

/-- C9: when the schedule's current status is not exactly `scheduled`,
the start action is rejected as stale: no remote call is issued, every
piece of local state is left untouched, and a message is surfaced. -/
theorem start_guard_stale_state (sched : Schedule) (s : SessionState)
    (remote : RemoteResult) (h : sched.status ≠ Status.scheduled) :
    handleStartCollection sched s remote
      = { state := s, schedule := sched, statusRequests := [],
          alerted := true } := by
  unfold handleStartCollection
  rw [if_pos h]

theorem start_guard_stale_state_witness :
    schedCompleted.status ≠ Status.scheduled ∧
    handleStartCollection schedCompleted sPre RemoteResult.err
      = { state := sPre, schedule := schedCompleted, statusRequests := [],
          alerted := true } :=
  ⟨by decide,
    start_guard_stale_state schedCompleted sPre RemoteResult.err (by decide)⟩

/-- C10: during active collection a bin-marker press changes only the
current stop pointer and the selected-bin highlight: the completed list,
the all-done flag and the active-collection flag are untouched and no
remote persistence request is issued, so a backward jump neither marks
nor un-marks any stop. -/
theorem select_stop_frame (s : SessionState) (i : Nat) (b : Bin)
    (hact : s.activeCollection = true) :
    (binMarkerPress s i b).state.currentStopIndex = i ∧
    (binMarkerPress s i b).state.selectedBin = some (BinEntry.bin b, i) ∧
    (binMarkerPress s i b).state.completedStops = s.completedStops ∧
    (binMarkerPress s i b).state.allBinsCollected = s.allBinsCollected ∧
    (binMarkerPress s i b).state.activeCollection = s.activeCollection ∧
    (binMarkerPress s i b).statusRequests = [] := by
  unfold binMarkerPress
  simp [hact]

theorem select_stop_frame_witness :
    sDone.activeCollection = true ∧
    ((binMarkerPress sDone 0 binA).state.currentStopIndex = 0 ∧
    (binMarkerPress sDone 0 binA).state.selectedBin
      = some (BinEntry.bin binA, 0) ∧
    (binMarkerPress sDone 0 binA).state.completedStops = sDone.completedStops ∧
    (binMarkerPress sDone 0 binA).state.allBinsCollected
      = sDone.allBinsCollected ∧
    (binMarkerPress sDone 0 binA).state.activeCollection
      = sDone.activeCollection ∧
    (binMarkerPress sDone 0 binA).statusRequests = []) :=
  ⟨by decide, select_stop_frame sDone 0 binA (by decide)⟩

end WCT
